import Mathlib

/-!
# Verification of the FijiBento spatial overlap filtering core

Shallow embedding of `src/scripts/bounding_box.py` (the `BoundingBox` class)
and of the candidate-pair selection described in the spec for
`src/scripts/match_sift_features_and_filter.py`.

Numeric values (Python floats) are embedded as exact rationals (`ℚ`).
Fallible constructors (`__init__` raising on invalid bounds, `fromList`
raising `IndexError` on short lists, `float()` raising `ValueError` on
non-numeric strings) are embedded as `Except BBError BoundingBox`; the
`IndexError`/`ValueError` paths are both mapped to `BBError.parseError`
and the `__init__` raise to `BBError.validationError`, following the
spec's error taxonomy.
-/

namespace FijiBento

/-- Error kinds of the bounding-box constructors.  `parseError` covers the
Python `IndexError` (too few list elements / tokens) and `ValueError`
(non-numeric token in `float()`); `validationError` covers the raise in
`BoundingBox.__init__` when `validate` fails. -/
inductive BBError where
  | parseError : BBError
  | validationError : BBError
deriving DecidableEq, Repr

/-- The `BoundingBox` class of `src/scripts/bounding_box.py`: four numeric
fields.  Field declaration order follows the `__init__` parameter and
serialization order `(from_x, to_x, from_y, to_y)`. -/
structure BoundingBox where
  from_x : ℚ
  to_x : ℚ
  from_y : ℚ
  to_y : ℚ
deriving DecidableEq, Repr

namespace BoundingBox

/-- `BoundingBox.validate` (bounding_box.py lines 29-33): returns `False`
iff `from_x > to_x` or `from_y > to_y`. -/
def validate (b : BoundingBox) : Bool :=
  if b.from_x > b.to_x ∨ b.from_y > b.to_y then false else true

/-- `BoundingBox.__init__` with four explicit numbers (bounding_box.py
lines 11-18): stores the four values and raises when `validate` fails. -/
def mk' (from_x to_x from_y to_y : ℚ) : Except BBError BoundingBox :=
  if (⟨from_x, to_x, from_y, to_y⟩ : BoundingBox).validate then
    .ok ⟨from_x, to_x, from_y, to_y⟩
  else .error .validationError

/-- `float(-sys.maxint - 1)` on a 64-bit CPython 2 build: `-2^63` is a
power of two, hence an exact IEEE double. -/
def minintF : ℚ := -9223372036854775808

/-- `float(sys.maxint)` on a 64-bit CPython 2 build: `2^63 - 1` is not
representable as a double (doubles near `2^63` are spaced `2^11` apart),
so round-to-nearest gives exactly `2^63`. -/
def maxintF : ℚ := 9223372036854775808

/-- The default-constructed box `BoundingBox()` (bounding_box.py lines
11-15): `__init__` applies `float()` to the defaults `-sys.maxint - 1`
and `sys.maxint`, storing exactly `-2^63` and `2^63`. -/
def defaultBox : BoundingBox :=
  ⟨minintF, maxintF, minintF, maxintF⟩

/-- `BoundingBox.overlap` (bounding_box.py lines 35-40): strict
inequalities on both axes. -/
def overlap (b other_bbox : BoundingBox) : Bool :=
  if (b.from_x < other_bbox.to_x) ∧ (b.to_x > other_bbox.from_x) ∧
     (b.from_y < other_bbox.to_y) ∧ (b.to_y > other_bbox.from_y) then true
  else false

/-- `BoundingBox.extend` (bounding_box.py lines 42-51): the in-place update
of `self`, embedded as returning the updated box.  Each field is replaced
by the other box's field exactly when the source's guard fires. -/
def extend (b other_bbox : BoundingBox) : BoundingBox :=
  { from_x := if b.from_x > other_bbox.from_x then other_bbox.from_x else b.from_x
    from_y := if b.from_y > other_bbox.from_y then other_bbox.from_y else b.from_y
    to_x := if b.to_x < other_bbox.to_x then other_bbox.to_x else b.to_x
    to_y := if b.to_y < other_bbox.to_y then other_bbox.to_y else b.to_y }

/-- `BoundingBox.toArray` (bounding_box.py lines 56-57). -/
def toArray (b : BoundingBox) : List ℚ :=
  [b.from_x, b.to_x, b.from_y, b.to_y]

/-- `BoundingBox.fromList` applied to a list of numbers (bounding_box.py
lines 20-22): reads positions 0-3, `IndexError` (here `parseError`) when
the list is shorter; extra elements are never read.  `float()` on a number
is the identity in the rational embedding. -/
def fromList : List ℚ → Except BBError BoundingBox
  | a :: b :: c :: d :: _ => mk' a b c d
  | _ => .error .parseError

/-- Containment of `inner` in `outer` (both axes), the notion the spec's
`extend` no-op clause quantifies over. -/
def containsBox (outer inner : BoundingBox) : Prop :=
  outer.from_x ≤ inner.from_x ∧ inner.to_x ≤ outer.to_x ∧
  outer.from_y ≤ inner.from_y ∧ inner.to_y ≤ outer.to_y

instance (outer inner : BoundingBox) : Decidable (containsBox outer inner) := by
  unfold containsBox; infer_instance

end BoundingBox

instance : Inhabited BoundingBox := ⟨⟨0, 0, 0, 0⟩⟩

instance : DecidableEq (Except BBError BoundingBox)
  | .ok a, .ok b => if h : a = b then .isTrue (by rw [h]) else .isFalse (by simp [h])
  | .error a, .error b => if h : a = b then .isTrue (by rw [h]) else .isFalse (by simp [h])
  | .ok _, .error _ => .isFalse (by simp)
  | .error _, .ok _ => .isFalse (by simp)

/-- The character for the decimal digit `d` (`d < 10`). -/
def digitChar (d : ℕ) : Char := Char.ofNat (48 + d)

/-- Decimal rendering of a natural number, most significant digit first. -/
def natToChars (n : ℕ) : List Char :=
  if n = 0 then ['0'] else (Nat.digits 10 n).reverse.map digitChar

/-- Decimal rendering of an integer (leading `-` when negative). -/
def intToChars (m : ℤ) : List Char :=
  if m < 0 then '-' :: natToChars m.natAbs else natToChars m.natAbs

/-- Numeric value of a run of decimal digit characters (most significant
first). -/
def parseDigits (l : List Char) : ℕ :=
  l.foldl (fun acc c => 10 * acc + (c.toNat - 48)) 0

/-- Python's `str.split(sep)` with a one-character separator: splits at
every occurrence of the separator, keeping empty fields (`"a  b".split(" ")
== ["a", "", "b"]`).  This is the `bbox_str.split(" ")` of
`BoundingBox.fromStr` (bounding_box.py line 27). -/
def splitChar (c : Char) : List Char → List (List Char)
  | [] => [[]]
  | a :: rest =>
    if a = c then [] :: splitChar c rest
    else
      match splitChar c rest with
      | [] => [[a]]
      | r :: rs => (a :: r) :: rs

/-- Leading-sign handling of Python's `float(s)`: a leading `-` gives sign
`-1`, a leading `+` gives `1`, anything else leaves the string whole. -/
def pySign : List Char → ℚ × List Char
  | c :: r => if c = '-' then (-1, r) else if c = '+' then (1, r) else (1, c :: r)
  | [] => (1, [])

/-- Sign of the exponent part of Python's `float(s)` (`true` = negative). -/
def pyExpSign : List Char → Bool × List Char
  | c :: r => if c = '-' then (true, r) else if c = '+' then (false, r) else (false, c :: r)
  | [] => (false, [])

/-- Fractional part of Python's `float(s)`: the digit run after a leading
`.`, with the unconsumed remainder. -/
def pyFrac : List Char → List Char × List Char
  | c :: r =>
    if c = '.' then (r.takeWhile Char.isDigit, r.dropWhile Char.isDigit) else ([], c :: r)
  | [] => ([], [])

/-- Exponent part of Python's `float(s)`: empty remainder keeps the
mantissa; otherwise `e`/`E`, an optional sign and a nonempty digit run
consuming the rest of the string scale it by a power of ten. -/
def pyExp (sgn base : ℚ) : List Char → Option ℚ
  | [] => some (sgn * base)
  | e :: r3 =>
    if e = 'e' ∨ e = 'E' then
      if (pyExpSign r3).2.takeWhile Char.isDigit = [] ∨
          (pyExpSign r3).2.dropWhile Char.isDigit ≠ [] then none
      else
        some (sgn * base *
          (if (pyExpSign r3).1 then
            ((10 : ℚ) ^ parseDigits ((pyExpSign r3).2.takeWhile Char.isDigit))⁻¹
          else (10 : ℚ) ^ parseDigits ((pyExpSign r3).2.takeWhile Char.isDigit)))
    else none

/-- Model of Python's `float(s)` on the token strings reaching it from
`fromStr`: an optional sign, a digit run with an optional fractional part
(at least one digit overall), and an optional exponent part, evaluated
exactly in `ℚ`.  `inf`/`nan` literals and surrounding whitespace (which
the space-split tokens cannot contain) are not modelled; a string outside
this grammar is non-numeric and yields `none` (Python: `ValueError`). -/
def pyFloat (s : List Char) : Option ℚ :=
  if (pySign s).2.takeWhile Char.isDigit = [] ∧
      (pyFrac ((pySign s).2.dropWhile Char.isDigit)).1 = [] then none
  else
    pyExp (pySign s).1
      ((parseDigits ((pySign s).2.takeWhile Char.isDigit) : ℚ) +
        (parseDigits (pyFrac ((pySign s).2.dropWhile Char.isDigit)).1 : ℚ) /
          10 ^ (pyFrac ((pySign s).2.dropWhile Char.isDigit)).1.length)
      (pyFrac ((pySign s).2.dropWhile Char.isDigit)).2

/-- `BoundingBox.fromList` applied to a list of token strings, as
`fromStr` does (bounding_box.py lines 20-27): positions 0-3 are read
(`IndexError`, i.e. `parseError`, when fewer), each is converted with
`float()` (`ValueError`, i.e. `parseError`, when non-numeric), further
elements are never read, and the four values go to `__init__`. -/
def fromTokens : List (List Char) → Except BBError BoundingBox
  | t0 :: t1 :: t2 :: t3 :: _ =>
    match pyFloat t0, pyFloat t1, pyFloat t2, pyFloat t3 with
    | some a, some b, some c, some d => BoundingBox.mk' a b c d
    | _, _, _, _ => .error .parseError
  | _ => .error .parseError

/-- `BoundingBox.fromStr` (bounding_box.py lines 25-27): split the string
on the space character and delegate to `fromList`. -/
def fromStr (s : String) : Except BBError BoundingBox :=
  fromTokens (splitChar ' ' s.data)

/-- Smallest exponent `k` with `q.den ∣ 10 ^ k`, searched up to `q.den`
(which suffices for every denominator of the form `2^a * 5^b`); `none`
when `q` has no finite decimal expansion. -/
def decExp (q : ℚ) : Option ℕ :=
  (List.range (q.den + 1)).find? (fun k => 10 ^ k % q.den == 0)

/-- Model of Python's `str()` on a float value: an exact decimal rendering
of the (always decimal-representable) value, in the exponent form
`<mantissa>e-<k>` with value `mantissa / 10^k`.  CPython 2's `str()`
truncates to 12 significant digits; the embedding renders the exact value,
which `float()` reads back unchanged. -/
def ratToStr (q : ℚ) : List Char :=
  match decExp q with
  | some k => intToChars (q.num * (((10 ^ k) / q.den : ℕ) : ℤ)) ++ 'e' :: '-' :: natToChars k
  | none => ['0']

/-- `BoundingBox.toStr` (bounding_box.py lines 53-54): the four fields in
`(from_x, to_x, from_y, to_y)` order, space-separated. -/
def toStr (b : BoundingBox) : String :=
  ⟨ratToStr b.from_x ++ ' ' ::
    (ratToStr b.to_x ++ ' ' :: (ratToStr b.from_y ++ ' ' :: ratToStr b.to_y))⟩

/-- Rationals with a finite decimal expansion (denominator dividing a power
of ten); this is the `ℚ`-embedding of "finite float value": every IEEE
float is `m / 2^k`, and `2^k ∣ 10^(2^k)`. -/
def IsDecimal (q : ℚ) : Prop := 10 ^ q.den % q.den = 0

instance (q : ℚ) : Decidable (IsDecimal q) := by
  unfold IsDecimal; infer_instance

/-- Modelled from the spec: the candidate-pair selection of
`match_sift_features_and_filter` (match_sift_features_and_filter.py lines
53-76) is commented out in the source (the live function always delegates
with `--all`); this definition follows the spec's description of the
selector — iterate over `itertools.combinations` of the tiles, keeping
each index pair `(i, j)`, `i < j`, whose bounding boxes overlap. -/
def candidatePairs (tiles : List BoundingBox) : List (ℕ × ℕ) :=
  (List.range tiles.length).flatMap fun i =>
    ((List.range tiles.length).filter fun j =>
      decide (i < j) && (tiles.getD i default).overlap (tiles.getD j default)).map
      fun j => (i, j)

/-! ## Helper lemmas -/

lemma validate_iff (b : BoundingBox) :
    b.validate = true ↔ b.from_x ≤ b.to_x ∧ b.from_y ≤ b.to_y := by
  unfold BoundingBox.validate
  split_ifs with h
  · exact iff_of_false (by simp)
      (fun hc => by rcases h with h | h <;> linarith [hc.1, hc.2])
  · push_neg at h
    exact iff_of_true rfl h

lemma ne_of_isDigit {c d : Char} (h : c.isDigit = true) (hd : d.isDigit = false) :
    c ≠ d := by
  rintro rfl
  rw [h] at hd
  exact absurd hd (by decide)

lemma digitChar_isDigit {d : ℕ} (h : d < 10) : (digitChar d).isDigit = true := by
  interval_cases d <;> decide

lemma digitChar_toNat {d : ℕ} (h : d < 10) : (digitChar d).toNat = 48 + d := by
  interval_cases d <;> decide

lemma natToChars_digits (n : ℕ) : ∀ c ∈ natToChars n, c.isDigit = true := by
  unfold natToChars
  split_ifs with h
  · intro c hc
    simp only [List.mem_singleton] at hc
    subst hc
    decide
  · intro c hc
    simp only [List.mem_map, List.mem_reverse] at hc
    obtain ⟨d, hd, rfl⟩ := hc
    exact digitChar_isDigit (Nat.digits_lt_base (by norm_num) hd)

lemma natToChars_ne_nil (n : ℕ) : natToChars n ≠ [] := by
  unfold natToChars
  split_ifs with h
  · simp
  · intro hc
    have hlen := congrArg List.length hc
    simp only [List.length_map, List.length_reverse, List.length_nil] at hlen
    exact h (Nat.digits_eq_nil_iff_eq_zero.mp (List.length_eq_zero.mp hlen))

lemma parseDigits_append (l : List Char) (c : Char) :
    parseDigits (l ++ [c]) = 10 * parseDigits l + (c.toNat - 48) := by
  simp [parseDigits, List.foldl_append]

lemma parseDigits_natToChars (n : ℕ) : parseDigits (natToChars n) = n := by
  unfold natToChars
  split_ifs with h
  · subst h; decide
  · have key : ∀ ds : List ℕ, (∀ d ∈ ds, d < 10) →
        parseDigits (ds.reverse.map digitChar) = Nat.ofDigits 10 ds := by
      intro ds
      induction ds with
      | nil => intro _; rfl
      | cons d t ih =>
        intro hds
        rw [List.reverse_cons, List.map_append]
        simp only [List.map_cons, List.map_nil]
        rw [parseDigits_append,
          ih (fun x hx => hds x (List.mem_cons_of_mem _ hx)),
          digitChar_toNat (hds d (List.mem_cons_self d t)), Nat.ofDigits_cons]
        omega
    rw [key _ (fun d hd => Nat.digits_lt_base (by norm_num) hd), Nat.ofDigits_digits]

lemma span_append {α : Type} (p : α → Bool) (l r : List α)
    (hl : ∀ c ∈ l, p c = true) (hr : ∀ c, r.head? = some c → p c = false) :
    (l ++ r).takeWhile p = l ∧ (l ++ r).dropWhile p = r := by
  induction l with
  | nil =>
    simp only [List.nil_append]
    cases r with
    | nil => exact ⟨rfl, rfl⟩
    | cons a t =>
      have ha := hr a rfl
      constructor
      · simp [List.takeWhile_cons, ha]
      · simp [List.dropWhile_cons, ha]
  | cons a t ih =>
    have ha : p a = true := hl a (List.mem_cons_self a t)
    obtain ⟨ih1, ih2⟩ := ih (fun c hc => hl c (List.mem_cons_of_mem _ hc))
    constructor
    · simp [List.cons_append, List.takeWhile_cons, ha, ih1]
    · simp [List.cons_append, List.dropWhile_cons, ha, ih2]

lemma pySign_digit {c : Char} (h : c.isDigit = true) (r : List Char) :
    pySign (c :: r) = (1, c :: r) := by
  simp only [pySign]
  rw [if_neg (ne_of_isDigit h (by decide)), if_neg (ne_of_isDigit h (by decide))]

lemma pySign_neg (r : List Char) : pySign ('-' :: r) = (-1, r) := by
  simp only [pySign]
  rw [if_pos trivial]

lemma pyExpSign_neg (r : List Char) : pyExpSign ('-' :: r) = (true, r) := by
  simp only [pyExpSign]
  rw [if_pos trivial]

lemma pyFrac_not_dot {c : Char} (h : c ≠ '.') (r : List Char) :
    pyFrac (c :: r) = ([], c :: r) := by
  simp only [pyFrac]
  rw [if_neg h]

/-- Evaluation of `pyFloat` when the string after the sign is a plain
nonempty digit run. -/
lemma pyFloat_plain (s : List Char) (sgn : ℚ) (dm : List Char) (hm : dm ≠ [])
    (hdm : ∀ c ∈ dm, c.isDigit = true) (hsign : pySign s = (sgn, dm)) :
    pyFloat s = some (sgn * (parseDigits dm : ℚ)) := by
  obtain ⟨ht, hd⟩ := span_append Char.isDigit dm [] hdm (fun c hc => by simp at hc)
  rw [List.append_nil] at ht hd
  unfold pyFloat
  rw [hsign]
  simp only [ht, hd]
  rw [if_neg (fun hc => hm hc.1)]
  norm_num [pyFrac, pyExp, parseDigits]

/-- Evaluation of `pyFloat` when the string after the sign is a nonempty
digit run followed by `e-` and a nonempty digit exponent. -/
lemma pyFloat_exp (s : List Char) (sgn : ℚ) (dm dk : List Char)
    (hm : dm ≠ []) (hk : dk ≠ [])
    (hdm : ∀ c ∈ dm, c.isDigit = true) (hdk : ∀ c ∈ dk, c.isDigit = true)
    (hsign : pySign s = (sgn, dm ++ 'e' :: '-' :: dk)) :
    pyFloat s = some (sgn * (parseDigits dm : ℚ) / 10 ^ parseDigits dk) := by
  obtain ⟨ht, hd⟩ := span_append Char.isDigit dm ('e' :: '-' :: dk) hdm
    (fun c hc => by rw [← Option.some.inj hc]; decide)
  obtain ⟨hkt, hkd⟩ := span_append Char.isDigit dk [] hdk (fun c hc => by simp at hc)
  rw [List.append_nil] at hkt hkd
  unfold pyFloat
  rw [hsign]
  simp only [ht, hd]
  rw [pyFrac_not_dot (by decide)]
  rw [if_neg (fun hc => hm hc.1)]
  simp only [pyExp]
  rw [if_pos (Or.inl trivial), pyExpSign_neg]
  simp only [hkt, hkd]
  rw [if_neg (by rintro (hc | hc); exacts [hk hc, hc rfl])]
  rw [if_pos trivial]
  simp only [parseDigits, List.foldl_nil, Nat.cast_zero, List.length_nil, pow_zero]
  norm_num [div_eq_mul_inv]

lemma intToChars_chars (m : ℤ) : ∀ c ∈ intToChars m, c.isDigit = true ∨ c = '-' := by
  unfold intToChars
  split_ifs with h
  · intro c hc
    rcases List.mem_cons.mp hc with rfl | hc
    · exact Or.inr rfl
    · exact Or.inl (natToChars_digits _ c hc)
  · intro c hc
    exact Or.inl (natToChars_digits _ c hc)

lemma pyFloat_intToChars_exp (m : ℤ) (k : ℕ) :
    pyFloat (intToChars m ++ 'e' :: '-' :: natToChars k) = some ((m : ℚ) / 10 ^ k) := by
  unfold intToChars
  split_ifs with hm
  · rw [List.cons_append,
      pyFloat_exp _ (-1) (natToChars m.natAbs) (natToChars k) (natToChars_ne_nil _)
        (natToChars_ne_nil _) (natToChars_digits _) (natToChars_digits _) (pySign_neg _),
      parseDigits_natToChars, parseDigits_natToChars]
    congr 1
    rw [Int.cast_natAbs, abs_of_neg hm]
    push_cast
    ring
  · push_neg at hm
    obtain ⟨c, cs, hcons⟩ : ∃ c cs, natToChars m.natAbs = c :: cs := by
      cases hh : natToChars m.natAbs with
      | nil => exact absurd hh (natToChars_ne_nil _)
      | cons c cs => exact ⟨c, cs, rfl⟩
    have hhead : c.isDigit = true :=
      natToChars_digits m.natAbs c (hcons ▸ List.mem_cons_self c cs)
    have hsign : pySign (natToChars m.natAbs ++ 'e' :: '-' :: natToChars k) =
        (1, natToChars m.natAbs ++ 'e' :: '-' :: natToChars k) := by
      rw [hcons, List.cons_append]
      exact pySign_digit hhead _
    rw [pyFloat_exp _ 1 (natToChars m.natAbs) (natToChars k) (natToChars_ne_nil _)
        (natToChars_ne_nil _) (natToChars_digits _) (natToChars_digits _) hsign,
      parseDigits_natToChars, parseDigits_natToChars]
    congr 1
    rw [one_mul]
    congr 1
    rw [Int.cast_natAbs, abs_of_nonneg hm]

lemma ratToStr_eq (q : ℚ) (hq : IsDecimal q) :
    ∃ k, q.den ∣ 10 ^ k ∧
      ratToStr q =
        intToChars (q.num * (((10 ^ k) / q.den : ℕ) : ℤ)) ++ 'e' :: '-' :: natToChars k := by
  have hp : (fun k => 10 ^ k % q.den == 0) q.den = true := by simpa using hq
  rcases hfind : (List.range (q.den + 1)).find? (fun k => 10 ^ k % q.den == 0) with _ | k
  · rw [List.find?_eq_none] at hfind
    exact absurd hp (by simpa using hfind q.den (by simp))
  · refine ⟨k, Nat.dvd_of_mod_eq_zero (by simpa using List.find?_some hfind), ?_⟩
    unfold ratToStr decExp
    rw [hfind]

lemma ratToStr_value (q : ℚ) (k : ℕ) (hdvd : q.den ∣ 10 ^ k) :
    ((q.num * (((10 ^ k) / q.den : ℕ) : ℤ) : ℤ) : ℚ) / 10 ^ k = q := by
  have hden : (q.den : ℚ) ≠ 0 := Nat.cast_ne_zero.mpr q.den_nz
  have h10 : (10 : ℚ) ^ k ≠ 0 := by positivity
  have ht : (q.den : ℚ) * ((10 ^ k / q.den : ℕ) : ℚ) = (10 : ℚ) ^ k := by
    rw [← Nat.cast_mul, Nat.mul_div_cancel' hdvd]
    push_cast
    ring
  have hnum : (q.num : ℚ) = q * q.den := by
    have h := Rat.num_div_den q
    rw [div_eq_iff hden] at h
    exact h
  rw [div_eq_iff h10, Int.cast_mul, Int.cast_natCast, ← ht, ← mul_assoc, hnum]

lemma pyFloat_ratToStr (q : ℚ) (hq : IsDecimal q) : pyFloat (ratToStr q) = some q := by
  obtain ⟨k, hdvd, heq⟩ := ratToStr_eq q hq
  rw [heq, pyFloat_intToChars_exp, ratToStr_value q k hdvd]

lemma ratToStr_chars (q : ℚ) : ∀ c ∈ ratToStr q, c ≠ ' ' := by
  intro c hc
  unfold ratToStr at hc
  rcases h : decExp q with _ | k <;> rw [h] at hc
  · simp only [List.mem_singleton] at hc
    subst hc
    decide
  · simp only [List.mem_append, List.mem_cons] at hc
    rcases hc with hc | hc | hc | hc
    · rcases intToChars_chars _ c hc with hd | rfl
      · exact ne_of_isDigit hd (by decide)
      · decide
    · subst hc; decide
    · subst hc; decide
    · exact ne_of_isDigit (natToChars_digits _ c hc) (by decide)

lemma splitChar_no_sep (c : Char) (l : List Char) (hl : ∀ x ∈ l, x ≠ c) :
    splitChar c l = [l] := by
  induction l with
  | nil => rfl
  | cons a t ih =>
    simp only [splitChar]
    rw [if_neg (hl a (List.mem_cons_self a t)),
      ih (fun x hx => hl x (List.mem_cons_of_mem _ hx))]

lemma splitChar_append (c : Char) (l r : List Char) (hl : ∀ x ∈ l, x ≠ c) :
    splitChar c (l ++ c :: r) = l :: splitChar c r := by
  induction l with
  | nil =>
    simp only [List.nil_append, splitChar]
    rw [if_pos trivial]
  | cons a t ih =>
    simp only [List.cons_append, splitChar, List.append_eq]
    rw [if_neg (hl a (List.mem_cons_self a t)),
      ih (fun x hx => hl x (List.mem_cons_of_mem _ hx))]

/-- The value of `pyFloat` on a single digit character. -/
lemma pyFloat_single {c : Char} (h : c.isDigit = true) :
    pyFloat [c] = some ((c.toNat - 48 : ℕ) : ℚ) := by
  rw [pyFloat_plain [c] 1 [c] (by simp) (by simpa using h) (pySign_digit h [])]
  norm_num [parseDigits]

/-- `fromTokens` fails with a parse error as soon as one of the first four
tokens is non-numeric. -/
lemma fromTokens_none {t0 t1 t2 t3 : List Char} {rest : List (List Char)}
    (h : pyFloat t0 = none ∨ pyFloat t1 = none ∨ pyFloat t2 = none ∨ pyFloat t3 = none) :
    fromTokens (t0 :: t1 :: t2 :: t3 :: rest) = .error .parseError := by
  simp only [fromTokens]
  cases h0 : pyFloat t0 <;> cases h1 : pyFloat t1 <;> cases h2 : pyFloat t2 <;>
    cases h3 : pyFloat t3 <;> first | rfl | (exfalso; rcases h with h | h | h | h <;> simp_all)

/-! ## Claim theorems -/

/-- Claim C2: for every pair of valid bounding boxes `a` and `b`,
`a.overlap b` returns true iff all four strict comparisons hold
(`a.from_x < b.to_x`, `a.to_x > b.from_x`, `a.from_y < b.to_y`,
`a.to_y > b.from_y`); in particular two boxes that merely touch at a
shared edge (`a.to_x = b.from_x`) do not overlap. -/
theorem overlap_strict_characterization (a b : BoundingBox)
    (ha : a.validate = true) (hb : b.validate = true) :
    (a.overlap b = true ↔
      (a.from_x < b.to_x ∧ a.to_x > b.from_x ∧ a.from_y < b.to_y ∧ a.to_y > b.from_y))
    ∧ (a.to_x = b.from_x → a.overlap b = false) := by
  constructor
  · simp [BoundingBox.overlap]
  · intro h
    simp [BoundingBox.overlap, h]

/-- Witness for C2: the spec's edge-touch scenario `A=[0,10,0,10]`,
`B=[10,20,0,10]` does not overlap. -/
theorem overlap_strict_characterization_witness :
    BoundingBox.overlap ⟨0, 10, 0, 10⟩ ⟨10, 20, 0, 10⟩ = false :=
  (overlap_strict_characterization ⟨0, 10, 0, 10⟩ ⟨10, 20, 0, 10⟩
    (by decide) (by decide)).2 rfl

/-- Claim C3: constructing a `BoundingBox` from four explicit numbers fails
with a `ValidationError` exactly when `from_x > to_x` or `from_y > to_y`,
succeeds with exactly those bounds otherwise, and a box violating the
invariant is never constructed. -/
theorem mk_validation (a b c d : ℚ) :
    (BoundingBox.mk' a b c d = .error .validationError ↔ (a > b ∨ c > d))
    ∧ ((a ≤ b ∧ c ≤ d) → BoundingBox.mk' a b c d = .ok ⟨a, b, c, d⟩)
    ∧ (∀ box : BoundingBox, BoundingBox.mk' a b c d = .ok box → box.validate = true) := by
  have hv := validate_iff ⟨a, b, c, d⟩
  unfold BoundingBox.mk'
  by_cases h : (⟨a, b, c, d⟩ : BoundingBox).validate = true
  · rw [if_pos h]
    obtain ⟨h1, h2⟩ := hv.mp h
    refine ⟨iff_of_false (by simp) ?_, fun _ => rfl, fun box hb => ?_⟩
    · rintro (h3 | h3) <;> linarith
    · obtain rfl : (⟨a, b, c, d⟩ : BoundingBox) = box := by injection hb
      exact h
  · rw [if_neg h]
    have h' : ¬(a ≤ b ∧ c ≤ d) := fun hc => h (hv.mpr hc)
    rw [not_and_or] at h'
    push_neg at h'
    refine ⟨iff_of_true rfl h', fun hc => absurd (hv.mpr hc) h, fun box hb => by simp at hb⟩

/-- Witness for C3: the spec's failing input `(5, 2, 0, 1)` fails with a
`ValidationError`, and `(0, 10, 0, 10)` succeeds with those bounds. -/
theorem mk_validation_witness :
    BoundingBox.mk' 5 2 0 1 = .error .validationError ∧
    BoundingBox.mk' 0 10 0 10 = .ok ⟨0, 10, 0, 10⟩ :=
  ⟨(mk_validation 5 2 0 1).1.mpr (by norm_num), (mk_validation 0 10 0 10).2.1 (by norm_num)⟩

/-- Claim C6: `a.extend b` yields the component-wise min of the `from_*`
fields and max of the `to_*` fields (the smallest box containing both);
the result of extending valid boxes is valid, and extending with a box
already contained in `a` leaves `a` unchanged. -/
theorem extend_union (a b : BoundingBox) :
    (a.extend b = ⟨min a.from_x b.from_x, max a.to_x b.to_x,
                   min a.from_y b.from_y, max a.to_y b.to_y⟩)
    ∧ (a.validate = true → b.validate = true → (a.extend b).validate = true)
    ∧ (a.containsBox b → a.extend b = a) := by
  have hmin : ∀ x y : ℚ, (if x > y then y else x) = min x y := by
    intro x y; rw [min_def]; split_ifs <;> first | rfl | linarith
  have hmax : ∀ x y : ℚ, (if x < y then y else x) = max x y := by
    intro x y; rw [max_def]; split_ifs <;> first | rfl | linarith
  have h1 : a.extend b = ⟨min a.from_x b.from_x, max a.to_x b.to_x,
      min a.from_y b.from_y, max a.to_y b.to_y⟩ := by
    unfold BoundingBox.extend
    rw [hmin, hmin, hmax, hmax]
  refine ⟨h1, fun ha hb => ?_, fun hc => ?_⟩
  · obtain ⟨hax, hay⟩ := (validate_iff a).mp ha
    obtain ⟨hbx, hby⟩ := (validate_iff b).mp hb
    rw [h1, validate_iff]
    exact ⟨le_trans (min_le_left _ _) (le_trans hax (le_max_left _ _)),
           le_trans (min_le_left _ _) (le_trans hay (le_max_left _ _))⟩
  · obtain ⟨hc1, hc2, hc3, hc4⟩ := hc
    rw [h1, min_eq_left hc1, max_eq_left hc2, min_eq_left hc3, max_eq_left hc4]

/-- Witness for C6: extending `[0,1]×[0,1]` with `[-1,2]×[3,4]` yields a
valid box, and extending `[0,5]×[0,5]` with the contained `[1,2]×[1,2]` is
a no-op. -/
theorem extend_union_witness :
    (BoundingBox.extend ⟨0, 1, 0, 1⟩ ⟨-1, 2, 3, 4⟩).validate = true ∧
    BoundingBox.extend ⟨0, 5, 0, 5⟩ ⟨1, 2, 1, 2⟩ = ⟨0, 5, 0, 5⟩ :=
  ⟨(extend_union ⟨0, 1, 0, 1⟩ ⟨-1, 2, 3, 4⟩).2.1 (by decide) (by decide),
   (extend_union ⟨0, 5, 0, 5⟩ ⟨1, 2, 1, 2⟩).2.2 (by decide)⟩

/-- Claim C8: the overlap predicate is symmetric, `a.overlap b = b.overlap a`
(stated for all boxes, hence in particular for all valid ones). -/
theorem overlap_symmetric (a b : BoundingBox) : a.overlap b = b.overlap a := by
  simp only [BoundingBox.overlap, gt_iff_lt]
  split_ifs with h1 h2 <;> first | rfl | tauto

/-- Claim C9: for every valid bounding box `a`, `a.overlap a` is true unless
`a` is degenerate (`from_x = to_x` or `from_y = to_y`), in which case it is
false. -/
theorem overlap_self_degenerate (a : BoundingBox) (h : a.validate = true) :
    a.overlap a = if a.from_x = a.to_x ∨ a.from_y = a.to_y then false else true := by
  obtain ⟨hx, hy⟩ := (validate_iff a).mp h
  by_cases hd : a.from_x = a.to_x ∨ a.from_y = a.to_y
  · rw [if_pos hd]
    have hnc : ¬(a.from_x < a.to_x ∧ a.from_x < a.to_x ∧
        a.from_y < a.to_y ∧ a.from_y < a.to_y) := by
      rintro ⟨hc1, _, hc2, _⟩
      rcases hd with h2 | h2
      · rw [h2] at hc1; exact lt_irrefl _ hc1
      · rw [h2] at hc2; exact lt_irrefl _ hc2
    simp only [BoundingBox.overlap, gt_iff_lt]
    rw [if_neg hnc]
  · rw [if_neg hd]
    push_neg at hd
    obtain ⟨hd1, hd2⟩ := hd
    simp only [BoundingBox.overlap, gt_iff_lt]
    rw [if_pos ⟨hx.lt_of_ne hd1, hx.lt_of_ne hd1, hy.lt_of_ne hd2, hy.lt_of_ne hd2⟩]

/-- Claim C1: for every sequence of tiles, the candidate-pair selector
emits exactly the pairs `(i, j)` with `i < j` whose bounding boxes overlap;
no pair is emitted twice, no tile is paired with itself, and for at most
one tile the result is empty. -/
theorem candidate_pairs_spec (tiles : List BoundingBox) :
    (∀ i j : ℕ, (i, j) ∈ candidatePairs tiles ↔
      (i < j ∧ j < tiles.length ∧
        (tiles.getD i default).overlap (tiles.getD j default) = true))
    ∧ (candidatePairs tiles).Nodup
    ∧ (∀ i : ℕ, (i, i) ∉ candidatePairs tiles)
    ∧ (tiles.length ≤ 1 → candidatePairs tiles = []) := by
  have hmem : ∀ i j : ℕ, (i, j) ∈ candidatePairs tiles ↔
      (i < j ∧ j < tiles.length ∧
        (tiles.getD i default).overlap (tiles.getD j default) = true) := by
    intro i j
    simp only [candidatePairs, List.mem_flatMap, List.mem_map, List.mem_filter,
      List.mem_range, Bool.and_eq_true, decide_eq_true_eq, Prod.mk.injEq]
    constructor
    · rintro ⟨a, ha, b, ⟨hb, hab, hov⟩, rfl, rfl⟩
      exact ⟨hab, hb, hov⟩
    · rintro ⟨hij, hj, hov⟩
      exact ⟨i, lt_trans hij hj, j, ⟨hj, hij, hov⟩, rfl, rfl⟩
  refine ⟨hmem, ?_, ?_, ?_⟩
  · unfold candidatePairs
    rw [List.nodup_flatMap]
    constructor
    · intro i _
      exact List.Nodup.map (fun a b hab => by simpa using hab)
        (List.Nodup.filter _ (List.nodup_range _))
    · refine (List.pairwise_lt_range _).imp ?_
      intro a b hab
      simp only [Function.onFun]
      intro x hxa hxb
      simp only [List.mem_map] at hxa hxb
      obtain ⟨ja, -, rfl⟩ := hxa
      obtain ⟨jb, -, heq⟩ := hxb
      have : b = a := congrArg Prod.fst heq
      omega
  · intro i hc
    exact absurd ((hmem i i).mp hc).1 (lt_irrefl i)
  · intro hlen
    rcases tiles with _ | ⟨t, _ | ⟨t', rest⟩⟩
    · rfl
    · rfl
    · simp at hlen

/-- Witness for C1: the spec's end-to-end scenario — tiles
`A=[0,10,0,10]`, `B=[5,15,5,15]`, `C=[20,30,20,30]` give exactly the pair
`(0, 1)`, and the empty tile list gives no pairs. -/
theorem candidate_pairs_spec_witness :
    ((0, 1) ∈ candidatePairs [⟨0, 10, 0, 10⟩, ⟨5, 15, 5, 15⟩, ⟨20, 30, 20, 30⟩]) ∧
    candidatePairs ([] : List BoundingBox) = [] :=
  ⟨((candidate_pairs_spec [⟨0, 10, 0, 10⟩, ⟨5, 15, 5, 15⟩, ⟨20, 30, 20, 30⟩]).1 0 1).mpr
      (by refine ⟨by norm_num, by norm_num, by decide⟩),
   (candidate_pairs_spec []).2.2.2 (by decide)⟩

/-- Counterexample to claim C7 as stated: the box
`[2^63, 2^63 + 2^11] × [0,1]` is valid and non-degenerate, and every one
of its coordinates is an exact IEEE double (doubles near `2^63` are
spaced `2^11` apart), so the real program's `float()` conversion stores
it unchanged — yet the default-constructed box does not overlap it: the
default bounds are `[-2^63, 2^63]` (the `float()`-rounded platform
integer range), not the full representable numeric range. -/
theorem default_overlap_counterexample :
    BoundingBox.validate ⟨9223372036854775808, 9223372036854777856, 0, 1⟩ = true ∧
    ((9223372036854775808 : ℚ) ≠ 9223372036854777856 ∧ (0 : ℚ) ≠ 1) ∧
    BoundingBox.defaultBox.overlap ⟨9223372036854775808, 9223372036854777856, 0, 1⟩ = false := by
  refine ⟨by decide, ⟨by norm_num, by norm_num⟩, ?_⟩
  simp only [BoundingBox.overlap, BoundingBox.defaultBox, BoundingBox.minintF,
    BoundingBox.maxintF, gt_iff_lt]
  rw [if_neg]
  rintro ⟨-, h, -, -⟩
  norm_num at h

/-- Claim C7 (amended): a default-constructed `BoundingBox` spans
`[float(-sys.maxint - 1), float(sys.maxint)] = [-2^63, 2^63]` on both
axes, and overlaps every valid non-degenerate bounding box that reaches
into the interior of that range. -/
theorem default_overlap (b : BoundingBox) (hv : b.validate = true)
    (hdx : b.from_x ≠ b.to_x) (hdy : b.from_y ≠ b.to_y)
    (h1 : b.from_x < BoundingBox.maxintF) (h2 : b.to_x > BoundingBox.minintF)
    (h3 : b.from_y < BoundingBox.maxintF) (h4 : b.to_y > BoundingBox.minintF) :
    BoundingBox.defaultBox =
      ⟨BoundingBox.minintF, BoundingBox.maxintF,
       BoundingBox.minintF, BoundingBox.maxintF⟩ ∧
    BoundingBox.defaultBox.overlap b = true := by
  refine ⟨rfl, ?_⟩
  simp only [BoundingBox.overlap, BoundingBox.defaultBox, gt_iff_lt]
  split_ifs with h
  · rfl
  · exact absurd ⟨h2, h1, h4, h3⟩ h

/-- Witness for C7 (amended): the default box overlaps the unit box. -/
theorem default_overlap_witness :
    BoundingBox.defaultBox.overlap ⟨0, 1, 0, 1⟩ = true :=
  (default_overlap ⟨0, 1, 0, 1⟩ (by decide) (by norm_num) (by norm_num)
    (by norm_num [BoundingBox.maxintF]) (by norm_num [BoundingBox.minintF])
    (by norm_num [BoundingBox.maxintF]) (by norm_num [BoundingBox.minintF])).2

/-- Witness for C9: the non-degenerate box `[0,10]×[0,10]` overlaps itself,
and the degenerate box `[0,0]×[0,10]` does not. -/
theorem overlap_self_degenerate_witness :
    BoundingBox.overlap ⟨0, 10, 0, 10⟩ ⟨0, 10, 0, 10⟩ =
      (if (0 : ℚ) = 10 ∨ (0 : ℚ) = 10 then false else true) ∧
    BoundingBox.overlap ⟨0, 0, 0, 10⟩ ⟨0, 0, 0, 10⟩ =
      (if (0 : ℚ) = 0 ∨ (0 : ℚ) = 10 then false else true) :=
  ⟨overlap_self_degenerate ⟨0, 10, 0, 10⟩ (by decide),
   overlap_self_degenerate ⟨0, 0, 0, 10⟩ (by decide)⟩

/-- Counterexample to claim C4 as stated: the five-token string
`"1 2 3 4 5"` does not fail with a `ParseError` — the fifth token is
silently ignored and parsing succeeds. -/
theorem fromStr_counterexample : fromStr "1 2 3 4 5" = .ok ⟨1, 2, 3, 4⟩ := by
  have hsplit : splitChar ' ' "1 2 3 4 5".data = [['1'], ['2'], ['3'], ['4'], ['5']] := rfl
  have h1 : pyFloat ['1'] = some 1 := by
    rw [pyFloat_single (by decide)]
    norm_num [show ('1'.toNat - 48 : ℕ) = 1 from rfl]
  have h2 : pyFloat ['2'] = some 2 := by
    rw [pyFloat_single (by decide)]
    norm_num [show ('2'.toNat - 48 : ℕ) = 2 from rfl]
  have h3 : pyFloat ['3'] = some 3 := by
    rw [pyFloat_single (by decide)]
    norm_num [show ('3'.toNat - 48 : ℕ) = 3 from rfl]
  have h4 : pyFloat ['4'] = some 4 := by
    rw [pyFloat_single (by decide)]
    norm_num [show ('4'.toNat - 48 : ℕ) = 4 from rfl]
  unfold fromStr
  rw [hsplit]
  simp only [fromTokens]
  rw [h1, h2, h3, h4]
  show BoundingBox.mk' 1 2 3 4 = .ok ⟨1, 2, 3, 4⟩
  unfold BoundingBox.mk'
  rw [if_pos (by decide)]

/-- Claim C4 (amended): parsing a bounding box from a string splits the
string on the space character, parses the first four tokens as
floating-point numbers in the order `(from_x, to_x, from_y, to_y)`, and
fails with a `ParseError` whenever the token count is less than 4 or any
of the first four tokens is non-numeric; tokens past the fourth are
ignored rather than causing failure. -/
theorem fromStr_failure (s : String)
    (h : (splitChar ' ' s.data).length < 4 ∨
      ∃ t ∈ (splitChar ' ' s.data).take 4, pyFloat t = none) :
    fromStr s = .error .parseError := by
  unfold fromStr
  rcases hl : splitChar ' ' s.data with _ | ⟨t0, _ | ⟨t1, _ | ⟨t2, _ | ⟨t3, rest⟩⟩⟩⟩ <;>
    rw [hl] at h
  · rfl
  · rfl
  · rfl
  · rfl
  · rcases h with hlen | ⟨t, ht, hnone⟩
    · simp only [List.length_cons] at hlen
      exact absurd hlen (by omega)
    · rw [show (t0 :: t1 :: t2 :: t3 :: rest).take 4 = [t0, t1, t2, t3] from rfl] at ht
      refine fromTokens_none ?_
      simp only [List.mem_cons, List.not_mem_nil, or_false] at ht
      rcases ht with rfl | rfl | rfl | rfl
      · exact Or.inl hnone
      · exact Or.inr (Or.inl hnone)
      · exact Or.inr (Or.inr (Or.inl hnone))
      · exact Or.inr (Or.inr (Or.inr hnone))

/-- Witness for C4 (amended): the spec's failing inputs `"1 2 3"` (three
tokens) and `"a b c d"` (non-numeric tokens) both fail with a
`ParseError`. -/
theorem fromStr_failure_witness :
    fromStr "1 2 3" = .error .parseError ∧ fromStr "a b c d" = .error .parseError :=
  ⟨fromStr_failure "1 2 3" (by decide), fromStr_failure "a b c d" (by decide)⟩

/-- Claim C5: serializing a finite valid bounding box to its delimited
string (fields in the order `from_x, to_x, from_y, to_y`) and parsing it
back yields the same box; likewise the ordered-value serialization
`toArray` feeds back through `fromList` unchanged, so the serialization
order matches the parsing order.  `IsDecimal` captures "finite float
value" in the rational embedding (every finite binary float has a finite
decimal expansion). -/
theorem toStr_roundtrip (b : BoundingBox) (hv : b.validate = true)
    (h1 : IsDecimal b.from_x) (h2 : IsDecimal b.to_x)
    (h3 : IsDecimal b.from_y) (h4 : IsDecimal b.to_y) :
    fromStr (toStr b) = .ok b ∧ BoundingBox.fromList b.toArray = .ok b := by
  have hmk : BoundingBox.mk' b.from_x b.to_x b.from_y b.to_y = .ok b := by
    unfold BoundingBox.mk'
    rw [if_pos hv]
  constructor
  · unfold fromStr
    rw [show (toStr b).data = ratToStr b.from_x ++ ' ' ::
        (ratToStr b.to_x ++ ' ' :: (ratToStr b.from_y ++ ' ' :: ratToStr b.to_y)) from rfl,
      splitChar_append _ _ _ (ratToStr_chars b.from_x),
      splitChar_append _ _ _ (ratToStr_chars b.to_x),
      splitChar_append _ _ _ (ratToStr_chars b.from_y),
      splitChar_no_sep _ _ (ratToStr_chars b.to_y)]
    simp only [fromTokens]
    rw [pyFloat_ratToStr _ h1, pyFloat_ratToStr _ h2, pyFloat_ratToStr _ h3,
      pyFloat_ratToStr _ h4]
    exact hmk
  · exact hmk

/-- Witness for C5: the valid box `[-3,2]×[0,5]` round-trips through its
delimited string. -/
theorem toStr_roundtrip_witness :
    fromStr (toStr ⟨-3, 2, 0, 5⟩) = .ok ⟨-3, 2, 0, 5⟩ :=
  (toStr_roundtrip ⟨-3, 2, 0, 5⟩ (by decide) (by decide) (by decide) (by decide)
    (by decide)).1

/-- Claim C10: constructing a bounding box from an ordered sequence uses
only positions 0-3 (as `from_x, to_x, from_y, to_y`): any sequence of
length at least 4 whose first four elements are numbers respecting the
invariant constructs successfully with the extra elements silently
ignored, and likewise a delimited string whose first four tokens are
numeric parses successfully even with more than 4 tokens. -/
theorem fromList_ignores_extra :
    (∀ (q0 q1 q2 q3 : ℚ) (extra : List ℚ), q0 ≤ q1 → q2 ≤ q3 →
      BoundingBox.fromList (q0 :: q1 :: q2 :: q3 :: extra) = .ok ⟨q0, q1, q2, q3⟩)
    ∧ (∀ (s : String) (q0 q1 q2 q3 : ℚ),
        ((splitChar ' ' s.data).take 4).map pyFloat = [some q0, some q1, some q2, some q3] →
        q0 ≤ q1 → q2 ≤ q3 → fromStr s = .ok ⟨q0, q1, q2, q3⟩) := by
  have hmk : ∀ q0 q1 q2 q3 : ℚ, q0 ≤ q1 → q2 ≤ q3 →
      BoundingBox.mk' q0 q1 q2 q3 = .ok ⟨q0, q1, q2, q3⟩ := by
    intro q0 q1 q2 q3 h01 h23
    unfold BoundingBox.mk'
    rw [if_pos ((validate_iff ⟨q0, q1, q2, q3⟩).mpr ⟨h01, h23⟩)]
  constructor
  · intro q0 q1 q2 q3 extra h01 h23
    simp only [BoundingBox.fromList]
    exact hmk q0 q1 q2 q3 h01 h23
  · intro s q0 q1 q2 q3 hmap h01 h23
    rcases htoks : splitChar ' ' s.data with _ | ⟨t0, _ | ⟨t1, _ | ⟨t2, _ | ⟨t3, rest⟩⟩⟩⟩ <;>
      rw [htoks] at hmap
    · simp at hmap
    · simp at hmap
    · simp at hmap
    · simp at hmap
    · rw [show (t0 :: t1 :: t2 :: t3 :: rest).take 4 = [t0, t1, t2, t3] from rfl] at hmap
      simp only [List.map_cons, List.map_nil, List.cons.injEq, and_true] at hmap
      obtain ⟨h0, h1, h2, h3⟩ := hmap
      unfold fromStr
      rw [htoks]
      simp only [fromTokens]
      rw [h0, h1, h2, h3]
      exact hmk q0 q1 q2 q3 h01 h23

/-- Witness for C10: a five-element list and a five-token string both
construct the box from the first four values. -/
theorem fromList_ignores_extra_witness :
    BoundingBox.fromList [0, 2, 1, 5, 99] = .ok ⟨0, 2, 1, 5⟩ ∧
    fromStr "0 2 1 5 99" = .ok ⟨0, 2, 1, 5⟩ := by
  constructor
  · exact fromList_ignores_extra.1 0 2 1 5 [99] (by norm_num) (by norm_num)
  · refine fromList_ignores_extra.2 "0 2 1 5 99" 0 2 1 5 ?_ (by norm_num) (by norm_num)
    rw [show (splitChar ' ' "0 2 1 5 99".data).take 4 = [['0'], ['2'], ['1'], ['5']] from rfl]
    simp only [List.map_cons, List.map_nil]
    rw [pyFloat_single (by decide), pyFloat_single (by decide), pyFloat_single (by decide),
      pyFloat_single (by decide)]
    norm_num [show ('0'.toNat - 48 : ℕ) = 0 from rfl, show ('2'.toNat - 48 : ℕ) = 2 from rfl,
      show ('1'.toNat - 48 : ℕ) = 1 from rfl, show ('5'.toNat - 48 : ℕ) = 5 from rfl]

end FijiBento
